import Mathlib

/-!
Verification development for the QuickBundlesX-style online clustering core
of this repository (dipy's `segment` clustering layer).

The repository snapshot under inspection contains the test module
`dipy/segment/tests/test_qbx.py` for the clustering core, while the core
implementation (`QuickBundlesX`, `AveragePointwiseEuclideanMetric`, the
centroid cluster / cluster map / cluster tree machinery) is not part of the
snapshot.  All definitions below that embed that core are therefore
modelled from the specification, with the in-repository tests fixing the
observable conventions (in particular the level indexing of
`get_clusters`: the tests access levels `0 .. len(thresholds)` inclusive,
and the level built with the `i`-th threshold is level `i + 1`).

Numbers are modelled exactly: point coordinates and centroids are rational
(`ℚ`), and the metric value is real (`ℝ`, square roots of sums of squares).
The clustering pass itself is generic in the ordered codomain `α` of the
metric, exactly as the code is generic in the pluggable `Metric` object.
-/

/-- Modelled from the spec: a 3D point of an input polyline; coordinates are
kept exact as rationals. -/
abbrev Point : Type := ℚ × ℚ × ℚ

/-- Modelled from the spec: a Feature is a fixed-shape descriptor, an ordered
list of 3D points (the resampled / identity descriptor of an item). -/
abbrev Feature : Type := List Point

/-- Modelled from the spec: a Centroid Cluster holds a running centroid and
the ordered list of member indices. -/
structure Cluster where
  centroid : Feature
  indices : List ℕ
deriving DecidableEq, Repr

instance : Inhabited Cluster := ⟨⟨[], []⟩⟩

/-- Modelled from the spec: `size()` is the current member count. -/
def Cluster.size (c : Cluster) : ℕ := c.indices.length

/-- Modelled from the spec: `create(feature, index)` makes a new cluster with
centroid equal to the feature and membership `{index}`. -/
def Cluster.create (f : Feature) (i : ℕ) : Cluster := ⟨f, [i]⟩

/-- Modelled from the spec: `add(feature, index)` updates the centroid
elementwise by `centroid + (feature - centroid) / (count + 1)`, appends the
index and (thereby) increments the count. -/
def Cluster.add (c : Cluster) (f : Feature) (i : ℕ) : Cluster :=
  ⟨List.zipWith (fun x y => x + ((c.size : ℚ) + 1)⁻¹ • (y - x)) c.centroid f,
   c.indices ++ [i]⟩

/-- Replace the cluster at position `n` by its image under `g`
(out-of-range positions leave the list unchanged). -/
def updateAt : List Cluster → ℕ → (Cluster → Cluster) → List Cluster
  | [], _, _ => []
  | c :: cs, 0, g => g c :: cs
  | c :: cs, n + 1, g => c :: updateAt cs n g

section Core

variable {α : Type} [LinearOrder α]

/-- Modelled from the spec: `find_nearest(feature)` scans all existing
clusters of a map and returns the position and distance of the
minimum-distance cluster, ties broken by earliest creation order; an empty
map yields no candidate. -/
def findNearest (d : Feature → Feature → α) (f : Feature) :
    List Cluster → Option (ℕ × α)
  | [] => none
  | c :: cs =>
    match findNearest d f cs with
    | none => some (0, d f c.centroid)
    | some (j, bd) =>
      if d f c.centroid ≤ bd then some (0, d f c.centroid) else some (j + 1, bd)

/-- Modelled from the spec: `assign(feature, index, threshold)` on a Cluster
Map: if the nearest cluster is within the threshold, `add` to it and return
its position, otherwise `create` a new cluster, register it at the end, and
return its position. -/
def assignCl (d : Feature → Feature → α) (t : α) (cs : List Cluster)
    (f : Feature) (i : ℕ) : List Cluster × ℕ :=
  match findNearest d f cs with
  | none => (cs ++ [Cluster.create f i], cs.length)
  | some (j, dist) =>
    if dist ≤ t then (updateAt cs j (fun c => c.add f i), j)
    else (cs ++ [Cluster.create f i], cs.length)

/-- Modelled from the spec and the tests: the root level of the hierarchy
(level 0) keeps a single cluster absorbing every item, irrespective of any
threshold. -/
def assignRoot (cs : List Cluster) (f : Feature) (i : ℕ) : List Cluster :=
  match cs with
  | [] => [Cluster.create f i]
  | c :: rest => c.add f i :: rest

/-- Modelled from the spec: one item is threaded through the whole threshold
cascade — the root level first, then one `assign` per configured
threshold. -/
def insertOne (d : Feature → Feature → α) (ts : List α) (f : Feature) (i : ℕ)
    (levels : List (List Cluster)) : List (List Cluster) :=
  match levels with
  | [] => []
  | root :: rest =>
      assignRoot root f i ::
        List.zipWith (fun t cs => (assignCl d t cs f i).1) ts rest

/-- Modelled from the spec: the single pass over the input features, items
numbered from `i` upwards, starting from the given per-level maps. -/
def runAux (d : Feature → Feature → α) (ts : List α)
    (levels : List (List Cluster)) (i : ℕ) : List Feature → List (List Cluster)
  | [] => levels
  | f :: fs => runAux d ts (insertOne d ts f i levels) (i + 1) fs

/-- Modelled from the spec: the full clustering pass. The hierarchy has one
root level plus one level per configured threshold, all initially empty;
items are processed in input order, numbered from 0. -/
def clusterRun (d : Feature → Feature → α) (ts : List α)
    (fs : List Feature) : List (List Cluster) :=
  runAux d ts (List.replicate (ts.length + 1) []) 0 fs

/-- Modelled from the spec: the per-threshold Cluster Map process on its own:
`assign` with one fixed threshold for each item in input order. -/
def runLevel (d : Feature → Feature → α) (t : α) (i : ℕ) (cs : List Cluster) :
    List Feature → List Cluster
  | [] => cs
  | f :: fs => runLevel d t (i + 1) (assignCl d t cs f i).1 fs

/-- Modelled from the spec: the root-level process on its own. -/
def runRoot (cs : List Cluster) (i : ℕ) : List Feature → List Cluster
  | [] => cs
  | f :: fs => runRoot (assignRoot cs f i) (i + 1) fs

/-- Modelled from the spec: `get_clusters(level)` returns the materialized
Cluster Map of one hierarchy level, when the level exists. -/
def getClusters (levels : List (List Cluster)) (level : ℕ) :
    Option (List Cluster) :=
  levels.get? level

/-- Modelled from the spec: `clusters_sizes()` lists cluster sizes in
creation order. -/
def clustersSizes (cs : List Cluster) : List ℕ := cs.map Cluster.size

/-- Modelled from the spec: the leaves of the Cluster Tree are the
finest-level clusters in creation order; each holds the input indices routed
through it. -/
def treeLeaves (levels : List (List Cluster)) : List Cluster :=
  levels.getLastD []

end Core

/-- Modelled from the spec: the Euclidean distance between two 3D points
(coordinates exact rationals, distance a real number). -/
noncomputable def pointDist (p q : Point) : ℝ :=
  Real.sqrt (((p.1 - q.1 : ℚ) : ℝ) ^ 2 + ((p.2.1 - q.2.1 : ℚ) : ℝ) ^ 2 +
    ((p.2.2 - q.2.2 : ℚ) : ℝ) ^ 2)

/-- Modelled from the spec: `AveragePointwiseEuclideanMetric` — the average
pointwise Euclidean distance over corresponding points of two descriptors. -/
noncomputable def avgEuclid (a b : Feature) : ℝ :=
  (List.zipWith pointDist a b).sum / (a.length : ℝ)

/-- Modelled from the spec: the direction-invariant metric variant, which
also evaluates the reversed point order of one operand and returns the
minimum of the two average pointwise distances. -/
noncomputable def mdfDist (a b : Feature) : ℝ :=
  min (avgEuclid a b) (avgEuclid a b.reverse)

/-- A cluster receiving a whole list of further `(feature, index)` members
through `add`, in order. -/
def Cluster.addList (c : Cluster) (ps : List (Feature × ℕ)) : Cluster :=
  ps.foldl (fun c p => c.add p.1 p.2) c

/-- All member indices of a Cluster Map, cluster by cluster in creation
order. -/
def mapIndices (cs : List Cluster) : List ℕ :=
  (cs.map Cluster.indices).flatten

/-- The elementwise sum, at point position `k`, of a list of features. -/
def featSumAt (gs : List Feature) (k : ℕ) : Point :=
  (gs.map (fun g => g.getD k 0)).sum

/-- Modelled from the spec: the error taxonomy of the clustering core. -/
inductive QBXError where
  | configurationError
  | invalidInputError
  | dimensionMismatchError
deriving DecidableEq, Repr

/-- Whether all extracted features have one common shape (point count). -/
def sameShape (fs : List Feature) : Bool :=
  match fs with
  | [] => true
  | f :: rest => rest.all (fun g => g.length == f.length)

/-- Feature extraction over the whole input collection: the first failing
item aborts the extraction with its error. -/
def extractAll (ex : List Point → Except QBXError Feature) :
    List (List Point) → Except QBXError (List Feature)
  | [] => .ok []
  | it :: rest =>
    match ex it with
    | .error e => .error e
    | .ok f =>
      match extractAll ex rest with
      | .error e => .error e
      | .ok fs => .ok (f :: fs)

/-- Modelled from the spec: the checked entry point of the pass.  An empty
threshold sequence is a `ConfigurationError`; a failing feature extraction
aborts with its error; features of inconsistent shapes abort with
`DimensionMismatchError`; otherwise the pass runs to completion. -/
def clusterChecked {α : Type} [LinearOrder α] (d : Feature → Feature → α)
    (ts : List α) (ex : List Point → Except QBXError Feature)
    (items : List (List Point)) : Except QBXError (List (List Cluster)) :=
  if ts.isEmpty then .error .configurationError
  else
    match extractAll ex items with
    | .error e => .error e
    | .ok fs =>
        if sameShape fs then .ok (clusterRun d ts fs)
        else .error .dimensionMismatchError

/-- Modelled from the spec: the default Feature Extractor resamples an item
to a fixed point count and fails with `InvalidInputError` on a degenerate
item with fewer than two points.  The resampling computation itself is an
excluded external collaborator of this core, abstracted as `res`. -/
def resampleExtract (res : List Point → Feature) (item : List Point) :
    Except QBXError Feature :=
  if item.length < 2 then .error .invalidInputError else .ok (res item)

/-- A simple computable discrete metric on features, used to instantiate
the generic clustering pass on concrete witnesses. -/
def dDisc (a b : Feature) : ℕ := if a = b then 0 else 1

/-- The five single-point items of scenario A, in the input order of the
repository test `test_3D_points`: x-coordinates 1, 3, 2, 5, 5.5 with
y = z = 0. -/
def fsA : List Feature :=
  [[((1 : ℚ), 0, 0)], [((3 : ℚ), 0, 0)], [((2 : ℚ), 0, 0)],
   [((5 : ℚ), 0, 0)], [((11 / 2 : ℚ), 0, 0)]]

/-- Scenario A: the clustering pass over `fsA` with thresholds `[4, 2, 1]`
under the average pointwise Euclidean metric. -/
noncomputable def runA : List (List Cluster) :=
  clusterRun avgEuclid [(4 : ℝ), 2, 1] fsA

/-- Two single-point items far apart (x = 0 and x = 10), used to separate
the root level from the first threshold level. -/
def fsB : List Feature := [[((0 : ℚ), 0, 0)], [((10 : ℚ), 0, 0)]]

/-- The per-level membership invariant after `n` items: the member lists of
one Cluster Map hold `n` indices in total, each index below `n` exactly
once. -/
def LevelInv (n : ℕ) (cs : List Cluster) : Prop :=
  (mapIndices cs).length = n ∧
  ∀ j, (mapIndices cs).count j = if j < n then 1 else 0

lemma findNearest_eq_none {α : Type} [LinearOrder α] (d : Feature → Feature → α)
    (f : Feature) : ∀ cs : List Cluster, findNearest d f cs = none ↔ cs = [] := by
  intro cs
  cases cs with
  | nil => simp [findNearest]
  | cons c cs =>
      simp only [findNearest]
      cases h : findNearest d f cs with
      | none => simp
      | some p =>
          obtain ⟨j, bd⟩ := p
          by_cases hle : d f c.centroid ≤ bd <;> simp [hle]

lemma findNearest_spec {α : Type} [LinearOrder α] (d : Feature → Feature → α)
    (f : Feature) :
    ∀ (cs : List Cluster) (j : ℕ) (dist : α),
      findNearest d f cs = some (j, dist) →
      j < cs.length ∧ dist = d f ((cs.getD j default).centroid) ∧
      (∀ k, k < cs.length → dist ≤ d f ((cs.getD k default).centroid)) ∧
      (∀ k, k < j → dist < d f ((cs.getD k default).centroid)) := by
  intro cs
  induction cs with
  | nil => intro j dist h; simp [findNearest] at h
  | cons c cs ih =>
      intro j dist h
      simp only [findNearest] at h
      cases hrec : findNearest d f cs with
      | none =>
          rw [hrec] at h
          simp only [Option.some.injEq, Prod.mk.injEq] at h
          obtain ⟨hj, hd⟩ := h
          subst hj; subst hd
          refine ⟨by simp, by simp, ?_, by omega⟩
          intro k hk
          have hcs : cs = [] := (findNearest_eq_none d f cs).1 hrec
          subst hcs
          simp at hk
          subst hk
          simp
      | some p =>
          obtain ⟨j', bd⟩ := p
          rw [hrec] at h
          have h : (if d f c.centroid ≤ bd then some (0, d f c.centroid)
              else some (j' + 1, bd)) = some (j, dist) := h
          by_cases hle : d f c.centroid ≤ bd
          · rw [if_pos hle] at h
            simp only [Option.some.injEq, Prod.mk.injEq] at h
            obtain ⟨hj, hd⟩ := h
            subst hj; subst hd
            have hspec := ih j' bd hrec
            refine ⟨by simp, by simp, ?_, by omega⟩
            intro k hk
            cases k with
            | zero => simp
            | succ k =>
                simp only [List.getD_cons_succ]
                exact le_trans hle (hspec.2.2.1 k (by simpa using hk))
          · rw [if_neg hle] at h
            simp only [Option.some.injEq, Prod.mk.injEq] at h
            obtain ⟨hj, hd⟩ := h
            subst hd
            obtain ⟨h1, h2, h3, h4⟩ := ih j' bd hrec
            push_neg at hle
            constructor
            · simp only [List.length_cons]; omega
            constructor
            · rw [← hj]; simpa using h2
            constructor
            · intro k hk
              cases k with
              | zero => simpa using le_of_lt hle
              | succ k =>
                  simp only [List.getD_cons_succ]
                  exact h3 k (by simpa using hk)
            · intro k hk
              cases k with
              | zero => simpa using hle
              | succ k =>
                  simp only [List.getD_cons_succ]
                  exact h4 k (by omega)

lemma mapIndices_cons (c : Cluster) (cs : List Cluster) :
    mapIndices (c :: cs) = c.indices ++ mapIndices cs := by
  simp [mapIndices]

lemma mapIndices_append (cs cs' : List Cluster) :
    mapIndices (cs ++ cs') = mapIndices cs ++ mapIndices cs' := by
  simp [mapIndices]

lemma updateAt_count (f : Feature) (i : ℕ) (j : ℕ) :
    ∀ (cs : List Cluster) (k : ℕ), k < cs.length →
      (mapIndices (updateAt cs k (fun c => c.add f i))).count j
        = (mapIndices cs).count j + (if j = i then 1 else 0) := by
  intro cs
  induction cs with
  | nil => intro k hk; simp at hk
  | cons c cs ih =>
      intro k hk
      cases k with
      | zero =>
          simp only [updateAt, mapIndices_cons, List.count_append, Cluster.add]
          simp [List.count_append, List.count_singleton]
          by_cases hji : j = i <;> (try simp [hji]) <;> omega
      | succ k =>
          simp only [updateAt, mapIndices_cons, List.count_append]
          rw [ih k (by simpa using hk)]
          ring

lemma assignCl_none {α : Type} [LinearOrder α] (d : Feature → Feature → α)
    (t : α) (cs : List Cluster) (f : Feature) (i : ℕ)
    (h : findNearest d f cs = none) :
    assignCl d t cs f i = (cs ++ [Cluster.create f i], cs.length) := by
  unfold assignCl
  rw [h]

lemma assignCl_some {α : Type} [LinearOrder α] (d : Feature → Feature → α)
    (t : α) (cs : List Cluster) (f : Feature) (i : ℕ) (j : ℕ) (dist : α)
    (h : findNearest d f cs = some (j, dist)) :
    assignCl d t cs f i =
      if dist ≤ t then (updateAt cs j (fun c => c.add f i), j)
      else (cs ++ [Cluster.create f i], cs.length) := by
  unfold assignCl
  rw [h]

lemma assignCl_count {α : Type} [LinearOrder α] (d : Feature → Feature → α)
    (t : α) (cs : List Cluster) (f : Feature) (i : ℕ) (j : ℕ) :
    (mapIndices (assignCl d t cs f i).1).count j
      = (mapIndices cs).count j + (if j = i then 1 else 0) := by
  cases hfn : findNearest d f cs with
  | none =>
      rw [assignCl_none d t cs f i hfn]
      simp only [mapIndices_append, List.count_append]
      simp [mapIndices, Cluster.create, List.count_singleton]
      by_cases hji : j = i <;> (try simp [hji]) <;> omega
  | some p =>
      obtain ⟨k, dist⟩ := p
      rw [assignCl_some d t cs f i k dist hfn]
      by_cases hle : dist ≤ t
      · rw [if_pos hle]
        exact updateAt_count f i j cs k (findNearest_spec d f cs k dist hfn).1
      · rw [if_neg hle]
        simp only [mapIndices_append, List.count_append]
        simp [mapIndices, Cluster.create, List.count_singleton]
        by_cases hji : j = i <;> (try simp [hji]) <;> omega

lemma assignRoot_count (cs : List Cluster) (f : Feature) (i : ℕ) (j : ℕ) :
    (mapIndices (assignRoot cs f i)).count j
      = (mapIndices cs).count j + (if j = i then 1 else 0) := by
  cases cs with
  | nil =>
      simp [assignRoot, mapIndices, Cluster.create, List.count_singleton]
      by_cases hji : j = i <;> (try simp [hji]) <;> omega
  | cons c cs =>
      simp only [assignRoot, mapIndices_cons, List.count_append, Cluster.add]
      simp only [List.count_append, List.count_singleton]
      by_cases hji : j = i <;> (try simp [hji]) <;> omega

lemma clustersSizes_sum (cs : List Cluster) :
    (clustersSizes cs).sum = (mapIndices cs).length := by
  induction cs with
  | nil => simp [clustersSizes, mapIndices]
  | cons c cs ih =>
      simp [clustersSizes, mapIndices_cons, Cluster.size] at *
      omega

lemma updateAt_len (f : Feature) (i : ℕ) :
    ∀ (cs : List Cluster) (k : ℕ), k < cs.length →
      (mapIndices (updateAt cs k (fun c => c.add f i))).length
        = (mapIndices cs).length + 1 := by
  intro cs
  induction cs with
  | nil => intro k hk; simp at hk
  | cons c cs ih =>
      intro k hk
      cases k with
      | zero => simp [updateAt, mapIndices_cons, Cluster.add]; omega
      | succ k =>
          simp only [updateAt, mapIndices_cons, List.length_append]
          rw [ih k (by simpa using hk)]
          omega

lemma assignCl_len {α : Type} [LinearOrder α] (d : Feature → Feature → α)
    (t : α) (cs : List Cluster) (f : Feature) (i : ℕ) :
    (mapIndices (assignCl d t cs f i).1).length = (mapIndices cs).length + 1 := by
  cases hfn : findNearest d f cs with
  | none =>
      rw [assignCl_none d t cs f i hfn]
      simp [mapIndices_append, mapIndices, Cluster.create]
  | some p =>
      obtain ⟨k, dist⟩ := p
      rw [assignCl_some d t cs f i k dist hfn]
      by_cases hle : dist ≤ t
      · rw [if_pos hle]
        exact updateAt_len f i cs k (findNearest_spec d f cs k dist hfn).1
      · rw [if_neg hle]
        simp [mapIndices_append, mapIndices, Cluster.create]

lemma assignRoot_len (cs : List Cluster) (f : Feature) (i : ℕ) :
    (mapIndices (assignRoot cs f i)).length = (mapIndices cs).length + 1 := by
  cases cs with
  | nil => simp [assignRoot, mapIndices, Cluster.create]
  | cons c cs =>
      simp [assignRoot, mapIndices_cons, Cluster.add]
      omega

lemma levelInv_assignCl {α : Type} [LinearOrder α] (d : Feature → Feature → α)
    (t : α) (cs : List Cluster) (f : Feature) (n : ℕ) (h : LevelInv n cs) :
    LevelInv (n + 1) ((assignCl d t cs f n).1) := by
  obtain ⟨hlen, hcount⟩ := h
  constructor
  · rw [assignCl_len d t cs f n, hlen]
  · intro j
    rw [assignCl_count d t cs f n j, hcount j]
    split_ifs <;> omega

lemma levelInv_assignRoot (cs : List Cluster) (f : Feature) (n : ℕ)
    (h : LevelInv n cs) : LevelInv (n + 1) (assignRoot cs f n) := by
  obtain ⟨hlen, hcount⟩ := h
  constructor
  · rw [assignRoot_len cs f n, hlen]
  · intro j
    rw [assignRoot_count cs f n j, hcount j]
    split_ifs <;> omega

lemma mem_zipWith_assign {α : Type} [LinearOrder α] (d : Feature → Feature → α)
    (f : Feature) (n : ℕ) :
    ∀ (ts : List α) (rest : List (List Cluster)) (x : List Cluster),
      x ∈ List.zipWith (fun t cs => (assignCl d t cs f n).1) ts rest →
      ∃ t, ∃ cs ∈ rest, x = (assignCl d t cs f n).1 := by
  intro ts
  induction ts with
  | nil => intro rest x hx; simp at hx
  | cons t ts ih =>
      intro rest x hx
      cases rest with
      | nil => simp at hx
      | cons cs rest =>
          simp only [List.zipWith_cons_cons, List.mem_cons] at hx
          rcases hx with hx | hx
          · exact ⟨t, cs, by simp, hx⟩
          · obtain ⟨t', cs', hmem, hx'⟩ := ih rest x hx
            exact ⟨t', cs', by simp [hmem], hx'⟩

lemma insertOne_inv {α : Type} [LinearOrder α] (d : Feature → Feature → α)
    (ts : List α) (f : Feature) (n : ℕ) (levels : List (List Cluster))
    (h : ∀ cs ∈ levels, LevelInv n cs) :
    ∀ cs ∈ insertOne d ts f n levels, LevelInv (n + 1) cs := by
  intro cs hcs
  cases levels with
  | nil => simp [insertOne] at hcs
  | cons root rest =>
      simp only [insertOne, List.mem_cons] at hcs
      rcases hcs with hcs | hcs
      · subst hcs
        exact levelInv_assignRoot root f n (h root (by simp))
      · obtain ⟨t, cs', hmem, hx⟩ := mem_zipWith_assign d f n ts rest cs hcs
        subst hx
        exact levelInv_assignCl d t cs' f n (h cs' (by simp [hmem]))

lemma runAux_inv {α : Type} [LinearOrder α] (d : Feature → Feature → α)
    (ts : List α) :
    ∀ (fs : List Feature) (levels : List (List Cluster)) (n : ℕ),
      (∀ cs ∈ levels, LevelInv n cs) →
      ∀ cs ∈ runAux d ts levels n fs, LevelInv (n + fs.length) cs := by
  intro fs
  induction fs with
  | nil => intro levels n h; simpa [runAux] using h
  | cons f fs ih =>
      intro levels n h cs hcs
      have := ih (insertOne d ts f n levels) (n + 1)
        (insertOne_inv d ts f n levels h) cs (by simpa [runAux] using hcs)
      simpa [Nat.add_assoc, Nat.add_comm 1 fs.length] using this

lemma clusterRun_inv {α : Type} [LinearOrder α] (d : Feature → Feature → α)
    (ts : List α) (fs : List Feature) :
    ∀ cs ∈ clusterRun d ts fs, LevelInv fs.length cs := by
  intro cs hcs
  have h0 : ∀ cs ∈ List.replicate (ts.length + 1) ([] : List Cluster),
      LevelInv 0 cs := by
    intro cs hcs
    rw [List.eq_of_mem_replicate hcs]
    exact ⟨by simp [mapIndices], fun j => by simp [mapIndices]⟩
  simpa using runAux_inv d ts fs (List.replicate (ts.length + 1) []) 0 h0 cs hcs

lemma zipWith_id_of_length {α : Type} :
    ∀ (ts : List α) (rest : List (List Cluster)), rest.length = ts.length →
      List.zipWith (fun _ cs => cs) ts rest = rest := by
  intro ts
  induction ts with
  | nil => intro rest h; simp [List.length_eq_zero.mp h]
  | cons t ts ih =>
      intro rest h
      cases rest with
      | nil => simp at h
      | cons cs rest => simp [ih rest (by simpa using h)]

lemma zipWith_fuse {α : Type} (g : α → List Cluster → List Cluster)
    (h : α → List Cluster → List Cluster) :
    ∀ (ts : List α) (rest : List (List Cluster)),
      List.zipWith g ts (List.zipWith h ts rest)
        = List.zipWith (fun t cs => g t (h t cs)) ts rest := by
  intro ts
  induction ts with
  | nil => intro rest; simp
  | cons t ts ih =>
      intro rest
      cases rest with
      | nil => simp
      | cons cs rest => simp [ih rest]

lemma runAux_decompose {α : Type} [LinearOrder α] (d : Feature → Feature → α)
    (ts : List α) :
    ∀ (fs : List Feature) (root : List Cluster) (rest : List (List Cluster))
      (i : ℕ), rest.length = ts.length →
      runAux d ts (root :: rest) i fs
        = runRoot root i fs ::
            List.zipWith (fun t cs => runLevel d t i cs fs) ts rest := by
  intro fs
  induction fs with
  | nil =>
      intro root rest i h
      simp [runAux, runRoot, runLevel, zipWith_id_of_length ts rest h]
  | cons f fs ih =>
      intro root rest i h
      simp only [runAux, insertOne]
      rw [ih (assignRoot root f i)
        (List.zipWith (fun t cs => (assignCl d t cs f i).1) ts rest) (i + 1)
        (by simp [h])]
      rw [zipWith_fuse]
      rfl

lemma zipWith_replicate_map {α : Type} (g : α → List Cluster → List Cluster)
    (c : List Cluster) :
    ∀ ts : List α,
      List.zipWith g ts (List.replicate ts.length c)
        = ts.map (fun t => g t c) := by
  intro ts
  induction ts with
  | nil => simp
  | cons t ts ih => simp [List.replicate_succ, ih]

lemma clusterRun_decompose {α : Type} [LinearOrder α] (d : Feature → Feature → α)
    (ts : List α) (fs : List Feature) :
    clusterRun d ts fs
      = runRoot [] 0 fs :: ts.map (fun t => runLevel d t 0 [] fs) := by
  unfold clusterRun
  rw [List.replicate_succ, runAux_decompose d ts fs [] (List.replicate ts.length []) 0
    (by simp), zipWith_replicate_map]

lemma runRoot_single :
    ∀ (fs : List Feature) (c : Cluster) (i : ℕ),
      ∃ c' : Cluster, runRoot [c] i fs = [c'] ∧
        c'.indices = c.indices ++ List.range' i fs.length := by
  intro fs
  induction fs with
  | nil => intro c i; exact ⟨c, by simp [runRoot], by simp⟩
  | cons f fs ih =>
      intro c i
      obtain ⟨c', hrun, hidx⟩ := ih (c.add f i) (i + 1)
      refine ⟨c', ?_, ?_⟩
      · simpa [runRoot, assignRoot] using hrun
      · rw [hidx]
        simp only [Cluster.add, List.length_cons]
        rw [List.range'_succ i fs.length 1, List.append_assoc]
        simp
  
lemma runRoot_nonempty (fs : List Feature) (h : fs ≠ []) :
    ∃ c : Cluster, runRoot [] 0 fs = [c] ∧ c.indices = List.range fs.length := by
  cases fs with
  | nil => exact absurd rfl h
  | cons f fs =>
      obtain ⟨c', hrun, hidx⟩ := runRoot_single fs (Cluster.create f 0) 1
      refine ⟨c', ?_, ?_⟩
      · simpa [runRoot, assignRoot] using hrun
      · rw [hidx]
        simp only [Cluster.create, List.length_cons]
        rw [List.range_eq_range', List.range'_succ 0 fs.length 1]
        simp

lemma mean_step {M : Type} [AddCommGroup M] [Module ℚ M] (s : ℚ)
    (hs : s + 1 ≠ 0) (c x : M) :
    (s + 1) • (c + (s + 1)⁻¹ • (x - c)) = s • c + x := by
  rw [smul_add, smul_inv_smul₀ hs, add_smul, one_smul]
  abel

lemma zipWith_getD {g : Point → Point → Point} {a b : Feature} {k m : ℕ}
    (ha : a.length = m) (hb : b.length = m) (hk : k < m) :
    (List.zipWith g a b).getD k 0 = g (a.getD k 0) (b.getD k 0) := by
  have hlen : (List.zipWith g a b).length = m := by
    simp [List.length_zipWith, ha, hb]
  rw [List.getD_eq_getElem _ _ (by omega : k < (List.zipWith g a b).length),
    List.getD_eq_getElem _ _ (by omega : k < a.length),
    List.getD_eq_getElem _ _ (by omega : k < b.length),
    List.getElem_zipWith]

lemma featSumAt_cons (g : Feature) (gs : List Feature) (k : ℕ) :
    featSumAt (g :: gs) k = g.getD k 0 + featSumAt gs k := by
  simp [featSumAt]

lemma addList_mean :
    ∀ (ps : List (Feature × ℕ)) (c : Cluster) (m : ℕ),
      c.centroid.length = m → (∀ p ∈ ps, p.1.length = m) → c.size ≠ 0 →
      (c.addList ps).size = c.size + ps.length ∧
      (c.addList ps).centroid.length = m ∧
      ∀ k, k < m →
        (c.addList ps).centroid.getD k 0
          = ((c.size : ℚ) + (ps.length : ℚ))⁻¹ •
              ((c.size : ℚ) • c.centroid.getD k 0
                + featSumAt (ps.map Prod.fst) k) := by
  intro ps
  induction ps with
  | nil =>
      intro c m hm hps hsz
      refine ⟨by simp [Cluster.addList], by simpa [Cluster.addList] using hm, ?_⟩
      intro k hk
      have hc : (c.size : ℚ) ≠ 0 := Nat.cast_ne_zero.mpr hsz
      simp [Cluster.addList, featSumAt, inv_smul_smul₀ hc]
  | cons p ps ih =>
      intro c m hm hps hsz
      have hp1 : p.1.length = m := hps p (by simp)
      have hlist : Cluster.addList c (p :: ps)
          = Cluster.addList (c.add p.1 p.2) ps := by
        simp [Cluster.addList]
      have hsize' : (c.add p.1 p.2).size = c.size + 1 := by
        simp [Cluster.add, Cluster.size]
      have hcen' : (c.add p.1 p.2).centroid.length = m := by
        simp [Cluster.add, List.length_zipWith, hm, hp1]
      obtain ⟨ihsz, ihlen, ihval⟩ :=
        ih (c.add p.1 p.2) m hcen' (fun q hq => hps q (by simp [hq]))
          (by omega)
      refine ⟨?_, ?_, ?_⟩
      · rw [hlist, ihsz, hsize']; simp; omega
      · rw [hlist]; exact ihlen
      · intro k hk
        rw [hlist, ihval k hk, hsize']
        have hck : (c.add p.1 p.2).centroid.getD k 0
            = c.centroid.getD k 0
              + ((c.size : ℚ) + 1)⁻¹ • (p.1.getD k 0 - c.centroid.getD k 0) := by
          simp only [Cluster.add]
          exact zipWith_getD hm hp1 hk
        have hpos : ((c.size : ℚ)) + 1 ≠ 0 := by positivity
        rw [hck]
        push_cast
        rw [mean_step (c.size : ℚ) hpos]
        rw [List.map_cons, featSumAt_cons]
        have hsc : ((c.size : ℚ) + 1 + (ps.length : ℚ))
            = ((c.size : ℚ) + ((ps.length : ℚ) + 1)) := by ring
        rw [hsc]
        congr 1
        · push_cast [List.length_cons]
          ring
        · abel

lemma pointDist_nonneg (p q : Point) : 0 ≤ pointDist p q :=
  Real.sqrt_nonneg _

lemma pointDist_self (p : Point) : pointDist p p = 0 := by
  simp [pointDist]

lemma zipWith_pointDist_sum_nonneg :
    ∀ (a b : Feature), 0 ≤ (List.zipWith pointDist a b).sum := by
  intro a
  induction a with
  | nil => intro b; simp
  | cons p a ih =>
      intro b
      cases b with
      | nil => simp
      | cons q b =>
          simp only [List.zipWith_cons_cons, List.sum_cons]
          exact add_nonneg (pointDist_nonneg p q) (ih b)

lemma avgEuclid_nonneg (a b : Feature) : 0 ≤ avgEuclid a b := by
  unfold avgEuclid
  apply div_nonneg
  · exact zipWith_pointDist_sum_nonneg a b
  · positivity

lemma avgEuclid_self (a : Feature) : avgEuclid a a = 0 := by
  unfold avgEuclid
  have h : List.zipWith pointDist a a = List.replicate a.length 0 := by
    induction a with
    | nil => simp
    | cons p a ih => simp [pointDist_self, List.replicate_succ, ih]
  rw [h]
  simp

lemma mdfDist_nonneg (a b : Feature) : 0 ≤ mdfDist a b :=
  le_min (avgEuclid_nonneg a b) (avgEuclid_nonneg a b.reverse)

lemma get?_isSome_iff (l : List (List Cluster)) (n : ℕ) :
    (l.get? n).isSome ↔ n < l.length := by
  rw [Option.isSome_iff_ne_none, ne_eq, List.get?_eq_none]
  omega

lemma getLastD_mem : ∀ l : List (List Cluster), l ≠ [] → l.getLastD [] ∈ l := by
  intro l
  induction l with
  | nil => intro h; exact absurd rfl h
  | cons x l ih =>
      intro _
      cases l with
      | nil => simp
      | cons y l => simpa using Or.inr (ih (by simp))

lemma clusterRun_length {α : Type} [LinearOrder α] (d : Feature → Feature → α)
    (ts : List α) (fs : List Feature) :
    (clusterRun d ts fs).length = ts.length + 1 := by
  rw [clusterRun_decompose]
  simp

/-- C7: the metric is non-negative and zero on identical descriptors; the
direction-invariant variant is the minimum of the naive distance on `(a, b)`
and on `(a, b reversed)`, hence at most the naive non-reversing distance;
for two mirrored 2-point items it equals the non-reversed distance computed
against the flipped pairing. -/
theorem claim_C7_metric :
    (∀ a b : Feature, 0 ≤ avgEuclid a b ∧ 0 ≤ mdfDist a b) ∧
    (∀ x : Feature, avgEuclid x x = 0 ∧ mdfDist x x = 0) ∧
    (∀ a b : Feature,
      mdfDist a b = min (avgEuclid a b) (avgEuclid a b.reverse) ∧
      mdfDist a b ≤ avgEuclid a b) ∧
    (∀ p q : Point, mdfDist [p, q] [q, p] = avgEuclid [p, q] [q, p].reverse) := by
  refine ⟨?_, ?_, ?_, ?_⟩
  · exact fun a b => ⟨avgEuclid_nonneg a b, mdfDist_nonneg a b⟩
  · intro x
    constructor
    · exact avgEuclid_self x
    · rw [mdfDist, avgEuclid_self]
      exact min_eq_left (avgEuclid_nonneg x x.reverse)
  · exact fun a b => ⟨rfl, min_le_left _ _⟩
  · intro p q
    have hrev : ([q, p] : Feature).reverse = [p, q] := by simp
    rw [mdfDist, hrev, avgEuclid_self]
    exact min_eq_right (avgEuclid_nonneg [p, q] [q, p])

/-- C8: the clustering pass is a deterministic function of the metric, the
threshold sequence and the ordered input features: runs on identical inputs
produce identical per-level cluster maps (hence identical memberships and
centroids at every level). -/
theorem claim_C8_determinism {α : Type} [LinearOrder α]
    (d d' : Feature → Feature → α) (ts ts' : List α) (fs fs' : List Feature)
    (hd : ∀ a b, d a b = d' a b) (ht : ts = ts') (hf : fs = fs') :
    clusterRun d ts fs = clusterRun d' ts' fs' ∧
    ∀ lvl, getClusters (clusterRun d ts fs) lvl
      = getClusters (clusterRun d' ts' fs') lvl := by
  have hdd : d = d' := funext fun a => funext fun b => hd a b
  subst hdd; subst ht; subst hf
  exact ⟨rfl, fun _ => rfl⟩

/-- Witness for C8 at a concrete metric, threshold list and feature list. -/
theorem claim_C8_determinism_witness :
    clusterRun dDisc [(0 : ℕ)] [[((0 : ℚ), 0, 0)]]
      = clusterRun dDisc [(0 : ℕ)] [[((0 : ℚ), 0, 0)]] ∧
    ∀ lvl, getClusters (clusterRun dDisc [(0 : ℕ)] [[((0 : ℚ), 0, 0)]]) lvl
      = getClusters (clusterRun dDisc [(0 : ℕ)] [[((0 : ℚ), 0, 0)]]) lvl :=
  claim_C8_determinism dDisc dDisc [(0 : ℕ)] [(0 : ℕ)]
    [[((0 : ℚ), 0, 0)]] [[((0 : ℚ), 0, 0)]] (fun _ _ => rfl) rfl rfl

/-- C10: clustering an empty input collection with a non-empty threshold
sequence raises no error (the checked pass returns `ok`), every level's
Cluster Map has an empty size list, and the tree has zero leaves. -/
theorem claim_C10_empty_input {α : Type} [LinearOrder α]
    (d : Feature → Feature → α) (ts : List α)
    (ex : List Point → Except QBXError Feature) (hts : ts ≠ []) :
    clusterChecked d ts ex [] = .ok (List.replicate (ts.length + 1) []) ∧
    (∀ lvl m, getClusters (clusterRun d ts ([] : List Feature)) lvl = some m →
      clustersSizes m = []) ∧
    treeLeaves (clusterRun d ts ([] : List Feature)) = [] := by
  have hrun : clusterRun d ts ([] : List Feature)
      = List.replicate (ts.length + 1) [] := rfl
  refine ⟨?_, ?_, ?_⟩
  · simp only [clusterChecked, extractAll]
    rw [if_neg (by simpa [List.isEmpty_iff] using hts)]
    simp [sameShape, hrun]
  · intro lvl m hm
    rw [hrun] at hm
    have hmem : m ∈ List.replicate (ts.length + 1) ([] : List Cluster) :=
      List.get?_mem hm
    rw [List.eq_of_mem_replicate hmem]
    simp [clustersSizes]
  · rw [hrun, treeLeaves]
    have hne : List.replicate (ts.length + 1) ([] : List Cluster) ≠ [] := by
      simp
    exact List.eq_of_mem_replicate (getLastD_mem _ hne)

/-- Witness for C10 on the threshold list `[1]`. -/
theorem claim_C10_empty_input_witness :
    clusterChecked dDisc [(0 : ℕ)] (fun it => Except.ok it) []
      = .ok (List.replicate 2 []) ∧
    (∀ lvl m,
      getClusters (clusterRun dDisc [(0 : ℕ)] ([] : List Feature)) lvl = some m →
      clustersSizes m = []) ∧
    treeLeaves (clusterRun dDisc [(0 : ℕ)] ([] : List Feature)) = [] :=
  claim_C10_empty_input dDisc [(0 : ℕ)] (fun it => Except.ok it) (by decide)

/-- C1: `assign(feature, index, threshold)` on a Cluster Map: on an empty
map it creates and registers a new cluster; otherwise `find_nearest` yields
the existing cluster at minimum distance from the feature, with distance
ties broken by earliest creation order; if that minimum distance is within
the threshold the feature and index are added to that cluster and it is the
one returned, else a new cluster is created, registered at the end, and
returned. -/
theorem claim_C1_assign {α : Type} [LinearOrder α] (d : Feature → Feature → α)
    (t : α) (cs : List Cluster) (f : Feature) (i : ℕ) :
    (cs = [] → findNearest d f cs = none ∧
      assignCl d t cs f i = ([Cluster.create f i], 0)) ∧
    (cs ≠ [] → ∃ j dist, findNearest d f cs = some (j, dist) ∧
      j < cs.length ∧
      dist = d f ((cs.getD j default).centroid) ∧
      (∀ k, k < cs.length → dist ≤ d f ((cs.getD k default).centroid)) ∧
      (∀ k, k < j → dist < d f ((cs.getD k default).centroid)) ∧
      (dist ≤ t →
        assignCl d t cs f i = (updateAt cs j (fun c => c.add f i), j)) ∧
      (¬ dist ≤ t →
        assignCl d t cs f i = (cs ++ [Cluster.create f i], cs.length))) := by
  constructor
  · intro h
    subst h
    exact ⟨rfl, by rw [assignCl_none d t [] f i rfl]; simp⟩
  · intro h
    cases hfn : findNearest d f cs with
    | none => exact absurd ((findNearest_eq_none d f cs).1 hfn) h
    | some p =>
        obtain ⟨j, dist⟩ := p
        obtain ⟨h1, h2, h3, h4⟩ := findNearest_spec d f cs j dist hfn
        refine ⟨j, dist, rfl, h1, h2, h3, h4, ?_, ?_⟩
        · intro hle
          rw [assignCl_some d t cs f i j dist hfn, if_pos hle]
        · intro hle
          rw [assignCl_some d t cs f i j dist hfn, if_neg hle]

/-- Witness for C1: a concrete two-cluster map in which the second cluster
is the unique nearest one and lies within the threshold. -/
theorem claim_C1_assign_witness :
    (([⟨[((0 : ℚ), 0, 0)], [0]⟩, ⟨[((5 : ℚ), 0, 0)], [1]⟩] : List Cluster)
        ≠ []) ∧
    (∃ j dist,
      findNearest dDisc [((4 : ℚ), 0, 0)]
          [⟨[((0 : ℚ), 0, 0)], [0]⟩, ⟨[((5 : ℚ), 0, 0)], [1]⟩]
        = some (j, dist) ∧
      j < 2 ∧
      dist = dDisc [((4 : ℚ), 0, 0)]
        ((([⟨[((0 : ℚ), 0, 0)], [0]⟩,
            ⟨[((5 : ℚ), 0, 0)], [1]⟩] : List Cluster).getD j
              default).centroid) ∧
      (∀ k, k < 2 → dist ≤ dDisc [((4 : ℚ), 0, 0)]
        ((([⟨[((0 : ℚ), 0, 0)], [0]⟩,
            ⟨[((5 : ℚ), 0, 0)], [1]⟩] : List Cluster).getD k
              default).centroid)) ∧
      (∀ k, k < j → dist < dDisc [((4 : ℚ), 0, 0)]
        ((([⟨[((0 : ℚ), 0, 0)], [0]⟩,
            ⟨[((5 : ℚ), 0, 0)], [1]⟩] : List Cluster).getD k
              default).centroid)) ∧
      (dist ≤ 2 →
        assignCl dDisc 2
            [⟨[((0 : ℚ), 0, 0)], [0]⟩, ⟨[((5 : ℚ), 0, 0)], [1]⟩]
            [((4 : ℚ), 0, 0)] 7
          = (updateAt [⟨[((0 : ℚ), 0, 0)], [0]⟩, ⟨[((5 : ℚ), 0, 0)], [1]⟩] j
              (fun c => c.add [((4 : ℚ), 0, 0)] 7), j)) ∧
      (¬ dist ≤ 2 →
        assignCl dDisc 2
            [⟨[((0 : ℚ), 0, 0)], [0]⟩, ⟨[((5 : ℚ), 0, 0)], [1]⟩]
            [((4 : ℚ), 0, 0)] 7
          = ([⟨[((0 : ℚ), 0, 0)], [0]⟩, ⟨[((5 : ℚ), 0, 0)], [1]⟩]
              ++ [Cluster.create [((4 : ℚ), 0, 0)] 7], 2))) :=
  ⟨by decide,
    (claim_C1_assign dDisc 2
      [⟨[((0 : ℚ), 0, 0)], [0]⟩, ⟨[((5 : ℚ), 0, 0)], [1]⟩]
      [((4 : ℚ), 0, 0)] 7).2 (by decide)⟩

/-- C6: after a pass over `N` items, at every hierarchy level each input
index below `N` appears in the member lists of that level's Cluster Map
exactly once (and indices `≥ N` never appear), hence the sizes at every
level sum to `N`; the same holds for the leaves of the Cluster Tree. -/
theorem claim_C6_partition {α : Type} [LinearOrder α]
    (d : Feature → Feature → α) (ts : List α) (fs : List Feature)
    (lvl : ℕ) (m : List Cluster)
    (h : getClusters (clusterRun d ts fs) lvl = some m) :
    ((clustersSizes m).sum = fs.length ∧
      (∀ j, j < fs.length → (mapIndices m).count j = 1) ∧
      (∀ j, fs.length ≤ j → (mapIndices m).count j = 0)) ∧
    ((clustersSizes (treeLeaves (clusterRun d ts fs))).sum = fs.length ∧
      ∀ j, j < fs.length →
        (mapIndices (treeLeaves (clusterRun d ts fs))).count j = 1) := by
  have hlvl : ∀ cs ∈ clusterRun d ts fs, LevelInv fs.length cs :=
    clusterRun_inv d ts fs
  have hm : LevelInv fs.length m := hlvl m (List.get?_mem h)
  have hleaf : LevelInv fs.length (treeLeaves (clusterRun d ts fs)) := by
    apply hlvl
    apply getLastD_mem
    intro hnil
    have := clusterRun_length d ts fs
    rw [hnil] at this
    simp at this
  obtain ⟨hlen, hcount⟩ := hm
  obtain ⟨hlen', hcount'⟩ := hleaf
  refine ⟨⟨?_, ?_, ?_⟩, ?_, ?_⟩
  · rw [clustersSizes_sum, hlen]
  · intro j hj
    rw [hcount j, if_pos hj]
  · intro j hj
    rw [hcount j, if_neg (by omega)]
  · rw [clustersSizes_sum, hlen']
  · intro j hj
    rw [hcount' j, if_pos hj]

/-- Witness for C6 at a concrete two-item run with one threshold. -/
theorem claim_C6_partition_witness :
    (((clustersSizes
        [⟨[((0 : ℚ), 0, 0)], [0]⟩, ⟨[((10 : ℚ), 0, 0)], [1]⟩]).sum = 2 ∧
      (∀ j, j < 2 → (mapIndices
        [⟨[((0 : ℚ), 0, 0)], [0]⟩, ⟨[((10 : ℚ), 0, 0)], [1]⟩]).count j = 1) ∧
      (∀ j, 2 ≤ j → (mapIndices
        [⟨[((0 : ℚ), 0, 0)], [0]⟩, ⟨[((10 : ℚ), 0, 0)], [1]⟩]).count j = 0)) ∧
     ((clustersSizes (treeLeaves (clusterRun dDisc [(0 : ℕ)]
        [[((0 : ℚ), 0, 0)], [((10 : ℚ), 0, 0)]]))).sum = 2 ∧
      ∀ j, j < 2 →
        (mapIndices (treeLeaves (clusterRun dDisc [(0 : ℕ)]
          [[((0 : ℚ), 0, 0)], [((10 : ℚ), 0, 0)]]))).count j = 1)) := by
  have h : getClusters
      (clusterRun dDisc [(0 : ℕ)] [[((0 : ℚ), 0, 0)], [((10 : ℚ), 0, 0)]]) 1
      = some [⟨[((0 : ℚ), 0, 0)], [0]⟩, ⟨[((10 : ℚ), 0, 0)], [1]⟩] := by
    decide
  have := claim_C6_partition dDisc [(0 : ℕ)]
    [[((0 : ℚ), 0, 0)], [((10 : ℚ), 0, 0)]] 1
    [⟨[((0 : ℚ), 0, 0)], [0]⟩, ⟨[((10 : ℚ), 0, 0)], [1]⟩] h
  simpa using this

/-- C2: each `add` performs the elementwise online-mean update
`centroid + (feature - centroid) / (count + 1)` and increments the count,
and after one `create` followed by any sequence of `add`s the centroid is
exactly the elementwise arithmetic mean of all features passed in. -/
theorem claim_C2_centroid_mean (f : Feature) (i : ℕ) (ps : List (Feature × ℕ))
    (m : ℕ) (hf : f.length = m) (hps : ∀ p ∈ ps, p.1.length = m) :
    (∀ (c : Cluster) (g : Feature) (jdx k : ℕ), c.centroid.length = m →
      g.length = m → k < m →
      (c.add g jdx).size = c.size + 1 ∧
      (c.add g jdx).centroid.getD k 0
        = c.centroid.getD k 0
          + ((c.size : ℚ) + 1)⁻¹ • (g.getD k 0 - c.centroid.getD k 0)) ∧
    ((Cluster.create f i).addList ps).size = ps.length + 1 ∧
    ((Cluster.create f i).addList ps).centroid.length = m ∧
    (∀ k, k < m →
      ((Cluster.create f i).addList ps).centroid.getD k 0
        = ((ps.length : ℚ) + 1)⁻¹ • featSumAt (f :: ps.map Prod.fst) k) := by
  have hc : (Cluster.create f i).centroid.length = m := by
    simpa [Cluster.create] using hf
  have hsz : (Cluster.create f i).size ≠ 0 := by simp [Cluster.create, Cluster.size]
  obtain ⟨h1, h2, h3⟩ := addList_mean ps (Cluster.create f i) m hc hps hsz
  refine ⟨?_, ?_, h2, ?_⟩
  · intro c g jdx k hcm hgm hk
    refine ⟨by simp [Cluster.add, Cluster.size], ?_⟩
    simp only [Cluster.add]
    exact zipWith_getD hcm hgm hk
  · rw [h1]; simp [Cluster.create, Cluster.size]; omega
  · intro k hk
    rw [h3 k hk]
    rw [featSumAt_cons]
    have hone : ((Cluster.create f i).size : ℚ) = 1 := by
      simp [Cluster.create, Cluster.size]
    rw [hone, one_smul]
    have hcf : (Cluster.create f i).centroid = f := rfl
    rw [hcf]
    ring_nf

/-- Witness for C2: one creation plus one addition with 1-point features. -/
theorem claim_C2_centroid_mean_witness :
    (([((1 : ℚ), 0, 0)] : Feature).length = 1 ∧
      (∀ p ∈ ([([((3 : ℚ), 0, 0)], 1)] : List (Feature × ℕ)),
        p.1.length = 1)) ∧
    (((Cluster.create [((1 : ℚ), 0, 0)] 0).addList
        [([((3 : ℚ), 0, 0)], 1)]).size = 2 ∧
      ((Cluster.create [((1 : ℚ), 0, 0)] 0).addList
        [([((3 : ℚ), 0, 0)], 1)]).centroid.length = 1 ∧
      (∀ k, k < 1 →
        ((Cluster.create [((1 : ℚ), 0, 0)] 0).addList
            [([((3 : ℚ), 0, 0)], 1)]).centroid.getD k 0
          = (((1 : ℕ) : ℚ) + 1)⁻¹ •
              featSumAt ([((1 : ℚ), 0, 0)] ::
                ([([((3 : ℚ), 0, 0)], 1)] : List (Feature × ℕ)).map Prod.fst)
                k)) := by
  have h := claim_C2_centroid_mean [((1 : ℚ), 0, 0)] 0
    [([((3 : ℚ), 0, 0)], 1)] 1 (by decide) (by decide)
  exact ⟨⟨by decide, by decide⟩, h.2.1, h.2.2.1, h.2.2.2⟩

lemma avgE_axis (x y : ℚ) :
    avgEuclid [(x, (0 : ℚ × ℚ))] [(y, (0 : ℚ × ℚ))] = |((x : ℝ)) - y| := by
  simp [avgEuclid, pointDist]
  rw [Real.sqrt_sq_eq_abs]

lemma runA_eval : runA =
    [[⟨[((33 / 10 : ℚ), 0, 0)], [0, 1, 2, 3, 4]⟩],
     [⟨[((33 / 10 : ℚ), 0, 0)], [0, 1, 2, 3, 4]⟩],
     [⟨[((2 : ℚ), 0, 0)], [0, 1, 2]⟩, ⟨[((21 / 4 : ℚ), 0, 0)], [3, 4]⟩],
     [⟨[((3 / 2 : ℚ), 0, 0)], [0, 2]⟩, ⟨[((3 : ℚ), 0, 0)], [1]⟩,
      ⟨[((21 / 4 : ℚ), 0, 0)], [3, 4]⟩]] := by
  norm_num [runA, clusterRun, fsA, runAux, insertOne, assignRoot, assignCl,
    findNearest, Cluster.add, Cluster.create, Cluster.size, updateAt,
    avgE_axis, Prod.ext_iff, smul_eq_mul, List.replicate,
    abs_of_nonneg, abs_of_nonpos]

/-- C3: scenario A — five single-point items with x-coordinates
1, 3, 2, 5, 5.5 (input order of the repository test) and thresholds
`[4, 2, 1]` under the average pointwise Euclidean metric.  The level built
with threshold 2 (hierarchy level 2) has sizes `[3, 2]`, grouping indices
`{0, 2, 1}` (x-values 1, 2, 3) and `{3, 4}` (x-values 5, 5.5); the level
built with threshold 4 (hierarchy level 1) has a single cluster of size
5. -/
theorem claim_C3_scenarioA :
    (∃ m2, getClusters runA 2 = some m2 ∧ clustersSizes m2 = [3, 2] ∧
      (m2.map Cluster.indices) = [[0, 1, 2], [3, 4]]) ∧
    (∃ m1, getClusters runA 1 = some m1 ∧ clustersSizes m1 = [5] ∧
      (m1.map Cluster.indices) = [[0, 1, 2, 3, 4]]) := by
  rw [runA_eval]
  constructor
  · refine ⟨_, rfl, ?_, ?_⟩ <;>
      simp [clustersSizes, Cluster.size]
  · refine ⟨_, rfl, ?_, ?_⟩ <;>
      simp [clustersSizes, Cluster.size]

/-- C4 counterexample: with the one-element threshold sequence `[0]` under
the discrete metric and two distinct items, the hierarchy has 2 levels (not
`L = 1`), `get_clusters(1)` is defined although `1` is outside `[0, L)`,
and level 0 is not the map built with the first threshold: level 0 holds a
single cluster of size 2 while the first-threshold map has sizes
`[1, 1]`. -/
theorem claim_C4_counterexample :
    (clusterRun dDisc [(0 : ℕ)] fsB).length ≠ 1 ∧
    (getClusters (clusterRun dDisc [(0 : ℕ)] fsB) 1).isSome = true ∧
    (getClusters (clusterRun dDisc [(0 : ℕ)] fsB) 0).map clustersSizes
      = some [2] ∧
    clustersSizes (runLevel dDisc (0 : ℕ) 0 [] fsB) = [1, 1] ∧
    ([2] : List ℕ) ≠ [1, 1] := by
  refine ⟨by decide, by decide, by decide, by decide, by decide⟩

/-- C4 as amended: for a threshold sequence of length `L` the hierarchy has
exactly `L + 1` levels — level 0 is the root level and the level built with
the first threshold is level 1 — and `get_clusters(level)` is defined
exactly for `level ∈ [0, L]`. -/
theorem claim_C4_amended {α : Type} [LinearOrder α] (d : Feature → Feature → α)
    (ts : List α) (fs : List Feature) :
    (clusterRun d ts fs).length = ts.length + 1 ∧
    (∀ lvl, (getClusters (clusterRun d ts fs) lvl).isSome ↔ lvl ≤ ts.length) ∧
    (∀ t ts2, ts = t :: ts2 →
      getClusters (clusterRun d ts fs) 1 = some (runLevel d t 0 [] fs)) := by
  refine ⟨clusterRun_length d ts fs, ?_, ?_⟩
  · intro lvl
    rw [getClusters, get?_isSome_iff, clusterRun_length d ts fs]
    omega
  · intro t ts2 hts
    subst hts
    rw [clusterRun_decompose]
    simp [getClusters]

/-- Witness for the amended C4 on a concrete run. -/
theorem claim_C4_amended_witness :
    getClusters (clusterRun dDisc [(0 : ℕ)] fsB) 1
      = some (runLevel dDisc (0 : ℕ) 0 [] fsB) :=
  (claim_C4_amended dDisc [(0 : ℕ)] fsB).2.2 (0 : ℕ) [] rfl

/-- C5 counterexample: on an empty input collection level 0 exists but
holds no cluster at all, so it does not hold "a single root cluster
containing all input items" (which would require exactly one cluster). -/
theorem claim_C5_counterexample :
    getClusters (clusterRun dDisc [(0 : ℕ)] ([] : List Feature)) 0
      = some [] ∧
    ∀ c : Cluster, ([] : List Cluster) ≠ [c] := by
  exact ⟨rfl, fun c => by simp⟩

/-- C5 as amended: for every threshold sequence of length `L` the result
exposes `L + 1` accessible levels (`get_clusters(level)` succeeds for
`level ∈ [0, L]`), the Cluster Map built with the `i`-th threshold is the
one returned by `get_clusters(i + 1)`, and — for a NON-EMPTY input
collection — level 0 holds a single root cluster containing all input
items. -/
theorem claim_C5_amended {α : Type} [LinearOrder α] (d : Feature → Feature → α)
    (ts : List α) (fs : List Feature) :
    (∀ lvl, lvl ≤ ts.length →
      (getClusters (clusterRun d ts fs) lvl).isSome) ∧
    (∀ i (hi : i < ts.length),
      getClusters (clusterRun d ts fs) (i + 1)
        = some (runLevel d (ts.get ⟨i, hi⟩) 0 [] fs)) ∧
    (fs ≠ [] → ∃ c, getClusters (clusterRun d ts fs) 0 = some [c] ∧
      c.indices = List.range fs.length) := by
  refine ⟨?_, ?_, ?_⟩
  · intro lvl hlvl
    rw [getClusters, get?_isSome_iff, clusterRun_length d ts fs]
    omega
  · intro i hi
    rw [clusterRun_decompose]
    simp only [getClusters, List.get?_cons_succ, List.get?_map]
    rw [List.get?_eq_get hi]
    rfl
  · intro hfs
    obtain ⟨c, hrun, hidx⟩ := runRoot_nonempty fs hfs
    refine ⟨c, ?_, hidx⟩
    rw [clusterRun_decompose]
    simp [getClusters, hrun]

/-- Witness for the amended C5 on a concrete two-item run. -/
theorem claim_C5_amended_witness :
    (getClusters (clusterRun dDisc [(0 : ℕ)] fsB) 1
      = some (runLevel dDisc (([(0 : ℕ)]).get ⟨0, by decide⟩) 0 [] fsB)) ∧
    (∃ c, getClusters (clusterRun dDisc [(0 : ℕ)] fsB) 0 = some [c] ∧
      c.indices = List.range fsB.length) :=
  ⟨(claim_C5_amended dDisc [(0 : ℕ)] fsB).2.1 0 (by decide),
   (claim_C5_amended dDisc [(0 : ℕ)] fsB).2.2 (by decide)⟩

/-- C9: an empty threshold sequence yields `ConfigurationError`; with a
non-empty threshold sequence, successful extraction and consistent shapes,
the pass completes without error; a degenerate item (fewer than two points)
under the default resampling extractor aborts with `InvalidInputError`, and
inconsistent feature shapes abort with `DimensionMismatchError`; each error
is returned synchronously instead of a result. -/
theorem claim_C9_errors {α : Type} [LinearOrder α] (d : Feature → Feature → α)
    (ts : List α) :
    (∀ ex items,
      clusterChecked d ([] : List α) ex items
        = .error .configurationError) ∧
    (ts ≠ [] → ∀ ex items fs, extractAll ex items = .ok fs →
      sameShape fs = true →
      clusterChecked d ts ex items = .ok (clusterRun d ts fs)) ∧
    (ts ≠ [] → ∀ res item rest, item.length < 2 →
      clusterChecked d ts (resampleExtract res) (item :: rest)
        = .error .invalidInputError) ∧
    (ts ≠ [] → ∀ ex items fs, extractAll ex items = .ok fs →
      sameShape fs = false →
      clusterChecked d ts ex items = .error .dimensionMismatchError) := by
  refine ⟨?_, ?_, ?_, ?_⟩
  · intro ex items
    simp [clusterChecked]
  · intro hts ex items fs hok hshape
    simp only [clusterChecked]
    rw [if_neg (by simpa [List.isEmpty_iff] using hts), hok]
    simp [hshape]
  · intro hts res item rest hlen
    simp only [clusterChecked]
    rw [if_neg (by simpa [List.isEmpty_iff] using hts)]
    have hfail : resampleExtract res item = .error .invalidInputError := by
      rw [resampleExtract, if_pos hlen]
    simp [extractAll, hfail]
  · intro hts ex items fs hok hshape
    simp only [clusterChecked]
    rw [if_neg (by simpa [List.isEmpty_iff] using hts), hok]
    simp [hshape]

/-- Witness for C9: the four error/success behaviours at concrete inputs. -/
theorem claim_C9_errors_witness :
    (clusterChecked dDisc ([] : List ℕ) (fun it => Except.ok it)
        [[((0 : ℚ), 0, 0), ((1 : ℚ), 0, 0)]]
      = .error .configurationError) ∧
    (clusterChecked dDisc [(0 : ℕ)] (fun it => Except.ok it)
        [[((0 : ℚ), 0, 0), ((1 : ℚ), 0, 0)]]
      = .ok (clusterRun dDisc [(0 : ℕ)]
          [[((0 : ℚ), 0, 0), ((1 : ℚ), 0, 0)]])) ∧
    (clusterChecked dDisc [(0 : ℕ)] (resampleExtract (fun it => it))
        ([((0 : ℚ), 0, 0)] :: [])
      = .error .invalidInputError) ∧
    (clusterChecked dDisc [(0 : ℕ)] (fun it => Except.ok it)
        [[((0 : ℚ), 0, 0)], [((0 : ℚ), 0, 0), ((1 : ℚ), 0, 0)]]
      = .error .dimensionMismatchError) :=
  ⟨(claim_C9_errors dDisc [(0 : ℕ)]).1 (fun it => Except.ok it)
      [[((0 : ℚ), 0, 0), ((1 : ℚ), 0, 0)]],
   (claim_C9_errors dDisc [(0 : ℕ)]).2.1 (by decide) (fun it => Except.ok it)
      [[((0 : ℚ), 0, 0), ((1 : ℚ), 0, 0)]]
      [[((0 : ℚ), 0, 0), ((1 : ℚ), 0, 0)]] rfl (by decide),
   (claim_C9_errors dDisc [(0 : ℕ)]).2.2.1 (by decide) (fun it => it)
      [((0 : ℚ), 0, 0)] [] (by decide),
   (claim_C9_errors dDisc [(0 : ℕ)]).2.2.2 (by decide) (fun it => Except.ok it)
      [[((0 : ℚ), 0, 0)], [((0 : ℚ), 0, 0), ((1 : ℚ), 0, 0)]]
      [[((0 : ℚ), 0, 0)], [((0 : ℚ), 0, 0), ((1 : ℚ), 0, 0)]]
      rfl (by decide)⟩
